import Mathlib

/-!
Shallow embedding of the hyper client connection pool
(`src/client/pool.rs`) and proofs about its behaviour.

The pool is single-threaded (Rc/RefCell); shared `Rc<Cell<_>>` status
cells, relay channels and cancel tokens are modelled as heaps indexed by
`Nat`, carried in a `World` record together with the `PoolInner` state.
`Instant` is modelled as a `Nat` clock stored in the world; `Duration`
as `Nat`.
-/

namespace HyperPool

/-- `client::Ver`: distinguishes exclusive (Http1) from multiplexed
(Http2) connections. -/
inductive Ver where
  | Http1
  | Http2
deriving DecidableEq

/-- `pool::Key = (Rc<String>, Ver)`. -/
abbrev Key := String × Ver

/-- `pool::TimedKA`: the tri-state stored in an entry's shared status
cell, with the idle timestamp. -/
inductive TimedKA where
  | Idle (ts : Nat)
  | Busy
  | Disabled
deriving DecidableEq

/-- `proto::KA`: the external projection of the status. -/
inductive KA where
  | Idle
  | Busy
  | Disabled
deriving DecidableEq

/-- Outcome of `Ready::poll_ready` (`Poll<(), ()>`): `Ok(Ready(()))`,
`Ok(NotReady)`, or `Err(())`. -/
inductive PollReady where
  | ready
  | notReady
  | broken
deriving DecidableEq

/-- `pool::Entry<T>`: the connection value, the reused flag, and the id
of the shared status cell (`Rc<Cell<TimedKA>>`).  Cloning an Entry in
Rust shares the cell; here a clone is literally the same record, the
`status` field being only a reference. -/
structure Entry (T : Type) where
  value : T
  is_reused : Bool
  status : Nat
deriving DecidableEq

/-- State of a relay one-shot channel between `Pool::put` (sender) and a
parked `Checkout` (receiver). -/
inductive Chan (T : Type) where
  | waiting
  | completed (e : Entry T)
  | txClosed
  | rxClosed
deriving DecidableEq

/-- One parked waiter: ids of its relay channel and its CancelToken
cell. -/
structure Waiter where
  chan : Nat
  token : Nat
deriving DecidableEq

/-- `pool::PoolInner<T>` (with the `http2` feature enabled, so the
`connecting` set is present).  HashMaps become association lists,
`HashMap<Key, ()>` a list of keys. -/
structure PoolInner (T : Type) where
  connecting : List Key
  enabled : Bool
  idle : List (Key × List (Entry T))
  parked : List (Key × List Waiter)
  timeout : Option Nat
deriving DecidableEq

/-- The whole single-threaded heap: the pool state plus the shared
status cells, relay channels, cancel-token cells, and the clock. -/
structure World (T : Type) where
  pool : PoolInner T
  cells : Nat → TimedKA
  nextCell : Nat
  chans : Nat → Chan T
  nextChan : Nat
  tokens : Nat → Bool
  nextToken : Nat
  now : Nat

/-- `pool::Pooled<T>`: the caller-facing handle.  `poolAlive` models
whether the `Weak<RefCell<PoolInner>>` still upgrades. -/
structure Pooled (T : Type) where
  entry : Entry T
  key : Key
  poolAlive : Bool
deriving DecidableEq

/-- `pool::Checkout<T>`: cancel-token cell id, key, and the optionally
held receiver (channel id). -/
structure Checkout (T : Type) where
  token : Nat
  key : Key
  parked : Option Nat
deriving DecidableEq

/-- `futures::Async` for `Poll<Item, _>` results. -/
inductive Async (α : Type) where
  | ready (a : α)
  | notReady
deriving DecidableEq

/-- Result of `Checkout::poll_parked` (`Poll<Pooled<T>, NotParked>`). -/
inductive ParkPoll (T : Type) where
  | ready (p : Pooled T)
  | notReady
  | notParked
deriving DecidableEq

/-! ### Association-list maps (HashMap model) -/

/-- Lookup in an association list (HashMap `get`). -/
def mget {α β : Type} [DecidableEq α] : List (α × β) → α → Option β
  | [], _ => none
  | (k, v) :: rest, k' => if k' = k then some v else mget rest k'

/-- Insert-or-replace in an association list (HashMap `insert` /
in-place mutation of a bucket). -/
def mset {α β : Type} [DecidableEq α] : List (α × β) → α → β → List (α × β)
  | [], k, v => [(k, v)]
  | (k', v') :: rest, k, v =>
      if k = k' then (k, v) :: rest else (k', v') :: mset rest k v

/-- Remove a key from an association list (HashMap `remove`). -/
def mdel {α β : Type} [DecidableEq α] : List (α × β) → α → List (α × β)
  | [], _ => []
  | (k', v') :: rest, k =>
      if k = k' then mdel rest k else (k', v') :: mdel rest k

theorem mget_mset_self {α β : Type} [DecidableEq α]
    (m : List (α × β)) (k : α) (v : β) : mget (mset m k v) k = some v := by
  induction m with
  | nil => simp [mget, mset]
  | cons hd tl ih =>
      obtain ⟨k', v'⟩ := hd
      by_cases h : k = k'
      · simp [mget, mset, h]
      · simp [mget, mset, h, ih]

theorem mget_mset_ne {α β : Type} [DecidableEq α]
    (m : List (α × β)) (k k' : α) (v : β) (h : k' ≠ k) :
    mget (mset m k v) k' = mget m k' := by
  induction m with
  | nil => simp [mget, mset, h]
  | cons hd tl ih =>
      obtain ⟨k₁, v₁⟩ := hd
      by_cases h1 : k = k₁
      · subst h1
        simp [mget, mset, h]
      · by_cases h2 : k' = k₁ <;> simp [mget, mset, h1, h2, ih]

theorem mget_mdel_self {α β : Type} [DecidableEq α]
    (m : List (α × β)) (k : α) : mget (mdel m k) k = none := by
  induction m with
  | nil => simp [mget, mdel]
  | cons hd tl ih =>
      obtain ⟨k', v'⟩ := hd
      by_cases h : k = k'
      · subst h
        simp [mdel, ih]
      · simp [mget, mdel, h, ih, Ne.symm h]

theorem mget_mdel_ne {α β : Type} [DecidableEq α]
    (m : List (α × β)) (k k' : α) (h : k' ≠ k) :
    mget (mdel m k) k' = mget m k' := by
  induction m with
  | nil => simp [mget, mdel]
  | cons hd tl ih =>
      obtain ⟨k₁, v₁⟩ := hd
      by_cases h1 : k = k₁
      · subst h1
        simp [mget, mdel, h, ih]
      · by_cases h2 : k' = k₁ <;> simp [mget, mdel, h1, h2, ih]

/-! ### Heap helpers: status cells, channels, tokens -/

/-- Read a status cell (`Cell::get`). -/
def cellGet {T : Type} (w : World T) (i : Nat) : TimedKA := w.cells i

/-- Write a status cell (`Cell::set`). -/
def setCell {T : Type} (w : World T) (i : Nat) (v : TimedKA) : World T :=
  { w with cells := fun j => if j = i then v else w.cells j }

/-- Read a channel's state. -/
def chanGet {T : Type} (w : World T) (i : Nat) : Chan T := w.chans i

/-- Overwrite a channel's state. -/
def setChan {T : Type} (w : World T) (i : Nat) (v : Chan T) : World T :=
  { w with chans := fun j => if j = i then v else w.chans j }

/-- `relay::Sender::is_canceled`: true when the receiver was dropped. -/
def txCanceled {T : Type} (w : World T) (i : Nat) : Bool :=
  match chanGet w i with
  | Chan.rxClosed => true
  | _ => false

/-- `CancelToken::is_canceled`. -/
def tokCanceled {T : Type} (w : World T) (i : Nat) : Bool := w.tokens i

/-- `CancelToken::cancel`. -/
def cancelToken {T : Type} (w : World T) (i : Nat) : World T :=
  { w with tokens := fun j => if j = i then true else w.tokens j }

/-- Dropping a sender: a still-waiting receiver will observe
`Err(Canceled)`; any other channel state is unaffected. -/
def dropTx {T : Type} (w : World T) (i : Nat) : World T :=
  match chanGet w i with
  | Chan.waiting => setChan w i (Chan.txClosed)
  | _ => w

/-- `relay::Sender::complete`: deliver the entry to the receiver. -/
def completeChan {T : Type} (w : World T) (i : Nat) (e : Entry T) : World T :=
  setChan w i (Chan.completed e)

/-- Dropping a receiver: the sender will observe `is_canceled`. -/
def dropRx {T : Type} (w : World T) (i : Nat) : World T :=
  setChan w i (Chan.rxClosed)

/-- Drop the receiver held in an `Option` (`self.parked.take()`). -/
def dropRxOpt {T : Type} (w : World T) (o : Option Nat) : World T :=
  match o with
  | some i => dropRx w i
  | none => w

/-! ### Expiration and waiter liveness -/

/-- `Expiration::expires`: an `Idle(idleAt)` entry is expired iff a
timeout is configured and `now - idleAt > timeout`. -/
def expires (timeout : Option Nat) (idleAt now : Nat) : Bool :=
  match timeout with
  | some t => decide (now - idleAt > t)
  | none => false

/-- A parked waiter is live when neither its sender nor its cancel
token is canceled (the condition `put` checks before completing). -/
def liveWaiter {T : Type} (w : World T) (wt : Waiter) : Bool :=
  !(txCanceled w wt.chan) && !(tokCanceled w wt.token)

/-- The condition under which `Pool::take`'s scan hands an entry out:
its cell holds an unexpired `Idle(ts)` and the probe answers Ready. -/
def acceptable {T : Type} (probe : T → PollReady) (timeout : Option Nat)
    (w : World T) (x : Entry T) : Bool :=
  match cellGet w x.status with
  | TimedKA.Idle ts =>
      !(expires timeout ts w.now) &&
        (match probe x.value with
         | PollReady.ready => true
         | _ => false)
  | _ => false

/-! ### Pool operations -/

/-- Append an entry to `idle[key]` (`Vec::push` via
`idle.entry(key).or_insert(Vec::new()).push(entry)`). -/
def pushIdle {T : Type} (w : World T) (key : Key) (e : Entry T) : World T :=
  { w with pool := { w.pool with
      idle := mset w.pool.idle key (((mget w.pool.idle key).getD []) ++ [e]) } }

/-- The waiter-fulfilment loop of `Pool::put`: pop waiters FIFO;
canceled waiters are discarded (their sender dropped); the first live
waiter receives the entry — for Http1 the loop then breaks and the
entry is consumed, for Http2 every live waiter receives a clone and the
whole queue drains.  Returns the leftover entry (if not consumed), the
remaining queue, and the updated world. -/
def drain {T : Type} (ver : Ver) (e : Entry T) :
    List Waiter → World T → Option (Entry T) × List Waiter × World T
  | [], w => (some e, [], w)
  | wt :: rest, w =>
      if txCanceled w wt.chan || tokCanceled w wt.token then
        drain ver e rest (dropTx w wt.chan)
      else if ver = Ver.Http1 then
        (none, rest, completeChan w wt.chan e)
      else
        drain ver e rest (completeChan w wt.chan e)

/-- Tail of `Pool::put` after the fulfilment loop: remove the parked
bucket (and the `connecting` hint) if the queue drained empty, then
append the leftover entry, if any, to `idle[key]`. -/
def putDone {T : Type} (w2 : World T) (key : Key)
    (leftover : Option (Entry T)) (q2 : List Waiter) : World T :=
  let w3 :=
    if q2.isEmpty then
      { w2 with pool := { w2.pool with
          parked := mdel w2.pool.parked key,
          connecting := w2.pool.connecting.filter (fun k => !(k = key)) } }
    else
      { w2 with pool := { w2.pool with
          parked := mset w2.pool.parked key q2 } }
  match leftover with
  | some e2 => pushIdle w3 key e2
  | none => w3

/-- `Pool::put`: set the entry's status cell to `Idle(now)`, satisfy
parked waiters FIFO, remove the parked bucket (and the `connecting`
hint) if it drained empty, and append the entry to `idle[key]` if it
was not consumed. -/
def put {T : Type} (w : World T) (key : Key) (e : Entry T) : World T :=
  let w1 := setCell w e.status (TimedKA.Idle w.now)
  match mget w1.pool.parked key with
  | none => pushIdle w1 key e
  | some q =>
      let r := drain key.2 e q w1
      putDone r.2.2 key r.1 r.2.1

/-- Remove the idle bucket for a key, plus the `connecting` hint
(the `should_remove` branch of `Pool::take`). -/
def removeBucket {T : Type} (w : World T) (key : Key) : World T :=
  { w with pool := { w.pool with
      idle := mdel w.pool.idle key,
      connecting := w.pool.connecting.filter (fun k => !(k = key)) } }

/-- The scan loop of `Pool::take`, expressed on the reversed idle list
(`Vec::pop` takes the last element, i.e. the head of the reversal).
An entry is handed out iff its cell is unexpired `Idle` and the probe
answers Ready; otherwise it is discarded and the scan continues.  For
non-Http1 keys the handed-out entry's cell is refreshed and a clone is
pushed back.  Returns the found entry, the remaining list (still
reversed), and the updated world. -/
def scanRev {T : Type} (probe : T → PollReady) (ver : Ver) (timeout : Option Nat) :
    List (Entry T) → World T → Option (Entry T) × List (Entry T) × World T
  | [], w => (none, [], w)
  | x :: rest, w =>
      match cellGet w x.status with
      | TimedKA.Idle idleAt =>
          if expires timeout idleAt w.now then
            scanRev probe ver timeout rest w
          else
            match probe x.value with
            | PollReady.ready =>
                if ver = Ver.Http1 then (some x, rest, w)
                else (some x, x :: rest, setCell w x.status (TimedKA.Idle w.now))
            | _ => scanRev probe ver timeout rest w
      | _ => scanRev probe ver timeout rest w

/-- `Pool::reuse`: mark the entry reused, flip the cell to Busy for
Http1, and wrap it in a Pooled holding a weak pool reference. -/
def reuse {T : Type} (w : World T) (key : Key) (e : Entry T) : Pooled T × World T :=
  let e2 : Entry T := { e with is_reused := true }
  let w2 := if key.2 = Ver.Http1 then setCell w e2.status TimedKA.Busy else w
  ({ entry := e2, key := key, poolAlive := true }, w2)

/-- Tail of `Pool::take` after the scan: failure removes the bucket;
success keeps (or removes, if empty) the remaining list and wraps the
found entry through `reuse`. -/
def takeDone {T : Type} (w2 : World T) (key : Key)
    (found : Option (Entry T)) (rem : List (Entry T)) : Option (Pooled T) × World T :=
  match found with
  | none => (none, removeBucket w2 key)
  | some e =>
      let w3 :=
        if rem.isEmpty then removeBucket w2 key
        else { w2 with pool := { w2.pool with
            idle := mset w2.pool.idle key rem } }
      let r := reuse w3 key e
      (some r.1, r.2)

/-- `Pool::take`: LIFO scan of `idle[key]`; the bucket is removed when
it ends empty (or when the scan fails), together with the `connecting`
hint; a found entry is returned through `reuse`. -/
def take {T : Type} (probe : T → PollReady) (w : World T) (key : Key) :
    Option (Pooled T) × World T :=
  match mget w.pool.idle key with
  | none => (none, w)
  | some l =>
      let s := scanRev probe key.2 w.pool.timeout l.reverse w
      takeDone s.2.2 key s.1 s.2.1.reverse

/-- `Pool::pooled`: allocate a fresh shared cell holding Busy, wrap the
value in an Entry with `is_reused = false`; for non-Http1 keys the
entry is immediately deposited via `put`. -/
def pooled {T : Type} (w : World T) (key : Key) (v : T) : Pooled T × World T :=
  let cid := w.nextCell
  let w1 : World T :=
    { w with cells := fun j => if j = cid then TimedKA.Busy else w.cells j,
             nextCell := cid + 1 }
  let e : Entry T := { value := v, is_reused := false, status := cid }
  let p : Pooled T := { entry := e, key := key, poolAlive := true }
  if key.2 = Ver.Http1 then (p, w1) else (p, put w1 key e)

/-- `Pool::is_enabled`. -/
def is_enabled {T : Type} (w : World T) : Bool := w.pool.enabled

/-- `Pool::park`: register a waiter at the tail of `parked[key]`. -/
def poolPark {T : Type} (w : World T) (key : Key) (ch tok : Nat) : World T :=
  { w with pool := { w.pool with
      parked := mset w.pool.parked key
        (((mget w.pool.parked key).getD []) ++ [⟨ch, tok⟩]) } }

/-- `Pool::clean_parked`: retain only un-canceled waiters for the key
(dropping the senders of the removed ones), deleting the bucket if it
ends empty. -/
def clean_parked {T : Type} (w : World T) (key : Key) : World T :=
  match mget w.pool.parked key with
  | none => w
  | some q =>
      let dead := q.filter (fun wt => txCanceled w wt.chan || tokCanceled w wt.token)
      let live := q.filter (fun wt => !(txCanceled w wt.chan || tokCanceled w wt.token))
      let w2 := dead.foldl (fun acc wt => dropTx acc wt.chan) w
      if live.isEmpty then
        { w2 with pool := { w2.pool with parked := mdel w2.pool.parked key } }
      else
        { w2 with pool := { w2.pool with parked := mset w2.pool.parked key live } }

/-! ### Pooled operations (`KeepAlive` impl) -/

/-- `Pooled::status`: project the cell onto `KA`. -/
def pooledStatus {T : Type} (w : World T) (p : Pooled T) : KA :=
  match cellGet w p.entry.status with
  | TimedKA.Idle _ => KA.Idle
  | TimedKA.Busy => KA.Busy
  | TimedKA.Disabled => KA.Disabled

/-- `Pooled::busy`. -/
def pooledBusy {T : Type} (w : World T) (p : Pooled T) : World T :=
  setCell w p.entry.status TimedKA.Busy

/-- `Pooled::disable`. -/
def pooledDisable {T : Type} (w : World T) (p : Pooled T) : World T :=
  setCell w p.entry.status TimedKA.Disabled

/-- `Pooled::idle`: refresh the cell to `Idle(now)`; if it was already
Idle, stop there.  Otherwise mark the handle reused and re-insert via
`put` when the pool is alive and enabled, else transition to
Disabled. -/
def pooledIdle {T : Type} (w : World T) (p : Pooled T) : World T × Pooled T :=
  let previous := pooledStatus w p
  let w1 := setCell w p.entry.status (TimedKA.Idle w.now)
  if previous = KA.Idle then (w1, p)
  else
    let p2 : Pooled T := { p with entry := { p.entry with is_reused := true } }
    if p2.poolAlive then
      if is_enabled w1 then (put w1 p2.key p2.entry, p2)
      else (pooledDisable w1 p2, p2)
    else (pooledDisable w1 p2, p2)

/-! ### Checkout operations -/

/-- `Pool::checkout`: fresh cancel token, no parked receiver. -/
def checkout {T : Type} (w : World T) (origin : String) (ver : Ver) :
    Checkout T × World T :=
  let tid := w.nextToken
  ({ token := tid, key := (origin, ver), parked := none },
   { w with tokens := fun j => if j = tid then false else w.tokens j,
            nextToken := tid + 1 })

/-- `Checkout::poll_parked`: if the cancel token is set, drop any held
receiver and report not-parked; otherwise poll the receiver — a
delivered entry is probed and, if Ready, returned through `reuse`;
a failed probe or a canceled sender drops the receiver and falls
through. -/
def pollParked {T : Type} (probe : T → PollReady) (w : World T) (c : Checkout T) :
    ParkPoll T × Checkout T × World T :=
  if tokCanceled w c.token then
    (ParkPoll.notParked, { c with parked := none }, dropRxOpt w c.parked)
  else
    match c.parked with
    | none => (ParkPoll.notParked, c, w)
    | some rx =>
        match chanGet w rx with
        | Chan.completed e =>
            match probe e.value with
            | PollReady.ready =>
                let r := reuse w c.key e
                (ParkPoll.ready r.1, c, r.2)
            | _ => (ParkPoll.notParked, { c with parked := none }, dropRx w rx)
        | Chan.waiting => (ParkPoll.notReady, c, w)
        | _ => (ParkPoll.notParked, { c with parked := none }, dropRx w rx)

/-- `Checkout::park`: when no receiver is held and the token is not
canceled, allocate a fresh channel and register `(sender, token)` at
the tail of `parked[key]`. -/
def checkoutPark {T : Type} (w : World T) (c : Checkout T) : World T × Checkout T :=
  if c.parked.isNone && !(tokCanceled w c.token) then
    let ch := w.nextChan
    let w1 : World T :=
      { w with chans := fun j => if j = ch then Chan.waiting else w.chans j,
               nextChan := ch + 1 }
    (poolPark w1 c.key ch c.token, { c with parked := some ch })
  else (w, c)

/-- `Checkout::poll` (`Future` impl): phase A drains any parked
hand-off; phase B tries `take` and parks on failure. -/
def checkoutPoll {T : Type} (probe : T → PollReady) (w : World T) (c : Checkout T) :
    Async (Pooled T) × Checkout T × World T :=
  let a := pollParked probe w c
  match a.1 with
  | ParkPoll.ready p => (Async.ready p, a.2.1, a.2.2)
  | ParkPoll.notReady => (Async.notReady, a.2.1, a.2.2)
  | ParkPoll.notParked =>
      let t := take probe a.2.2 a.2.1.key
      match t.1 with
      | some p => (Async.ready p, a.2.1, t.2)
      | none =>
          let pk := checkoutPark t.2 a.2.1
          (Async.notReady, pk.2, pk.1)

/-- `Drop for Checkout`: drop the held receiver, then clean the parked
bucket for the key. -/
def checkoutDrop {T : Type} (w : World T) (c : Checkout T) : World T :=
  clean_parked (dropRxOpt w c.parked) c.key

/-! ### Public operations and reachable worlds -/

/-- The public operations of the pool surface, applied to arbitrary
handles (a superset of the reachable ones). -/
inductive PublicOp (T : Type) where
  | opPooled (key : Key) (v : T)
  | opIdle (p : Pooled T)
  | opPoll (c : Checkout T)
  | opDrop (c : Checkout T)
  | opCheckout (origin : String) (ver : Ver)
  | opCancel (tok : Nat)
  | opTick (dt : Nat)

/-- Apply a public operation to the world, discarding the returned
handles. -/
def applyOp {T : Type} (probe : T → PollReady) (w : World T) : PublicOp T → World T
  | PublicOp.opPooled key v => (pooled w key v).2
  | PublicOp.opIdle p => (pooledIdle w p).1
  | PublicOp.opPoll c => (checkoutPoll probe w c).2.2
  | PublicOp.opDrop c => checkoutDrop w c
  | PublicOp.opCheckout o v => (checkout w o v).2
  | PublicOp.opCancel tok => cancelToken w tok
  | PublicOp.opTick dt => { w with now := w.now + dt }

/-- `Pool::new`: empty maps, fresh heaps, clock at 0. -/
def World.init (T : Type) (enabled : Bool) (timeout : Option Nat) : World T :=
  { pool := { connecting := [], enabled := enabled, idle := [],
              parked := [], timeout := timeout },
    cells := fun _ => TimedKA.Disabled, nextCell := 0,
    chans := fun _ => Chan.rxClosed, nextChan := 0,
    tokens := fun _ => false, nextToken := 0,
    now := 0 }

/-- Every bucket that lookup finds in the map is non-empty. -/
def mapNE {β : Type} (m : List (Key × List β)) : Prop :=
  ∀ k l, mget m k = some l → l ≠ []

/-- Spec invariant 4: no empty bucket is ever left in the idle or the
parked map. -/
def invNoEmptyBuckets {T : Type} (w : World T) : Prop :=
  mapNE w.pool.idle ∧ mapNE w.pool.parked

/-- Spec invariant 3: `idle[k]` and `parked[k]` are never both
non-empty. -/
def invNotBothNonempty {T : Type} (w : World T) : Prop :=
  ∀ k li lp, mget w.pool.idle k = some li → mget w.pool.parked k = some lp →
    li = [] ∨ lp = []

/-! ### Concrete instances (used by witnesses and counterexamples) -/

/-- A probe that always answers Ready (the `impl Ready for i32` of the
source's tests). -/
def probeRdy : Nat → PollReady := fun _ => PollReady.ready

/-- A probe that always answers NotReady. -/
def probeNRdy : Nat → PollReady := fun _ => PollReady.notReady

def exKeyH1 : Key := ("foo", Ver.Http1)

def exKeyH2 : Key := ("bar", Ver.Http2)

def exW0 : World Nat := World.init Nat true none

/-- An Http2 install on a fresh pool. -/
def exPooledH2 : Pooled Nat × World Nat := pooled exW0 exKeyH2 7

/-- Http1 install on a fresh pool, returned to idle, clock advanced. -/
def c3base : Pooled Nat × World Nat := pooled exW0 exKeyH1 41

def c3idle : World Nat × Pooled Nat := pooledIdle c3base.2 c3base.1

def c3w : World Nat := { c3idle.1 with now := c3idle.1.now + 5 }

/-- A Busy handle on a keep-alive-disabled pool. -/
def c9pair : Pooled Nat × World Nat := pooled (World.init Nat false none) exKeyH1 41

/-- An idle Http1 entry of age 1000 in a pool with no timeout. -/
def c6w : World Nat := { c3idle.1 with now := c3idle.1.now + 1000 }

/-- Three Http1 entries idled in order (values 41, 5, 99), then the
clock advanced past the 1-tick timeout, then the first two re-idled
(refreshing their timestamps): the scenario of the source's
`test_pool_removes_expired`. -/
def c8a : Pooled Nat × World Nat := pooled (World.init Nat true (some 1)) exKeyH1 41

def c8b : World Nat × Pooled Nat := pooledIdle c8a.2 c8a.1

def c8c : Pooled Nat × World Nat := pooled c8b.1 exKeyH1 5

def c8d : World Nat × Pooled Nat := pooledIdle c8c.2 c8c.1

def c8e : Pooled Nat × World Nat := pooled c8d.1 exKeyH1 99

def c8f : World Nat × Pooled Nat := pooledIdle c8e.2 c8e.1

def c8g : World Nat := { c8f.1 with now := c8f.1.now + 2 }

def c8h : World Nat × Pooled Nat := pooledIdle c8g c8b.2

def c8w : World Nat := (pooledIdle c8h.1 c8d.2).1

/-- Two checkouts parked on the same Http1 key, the first one's cancel
token then set: a queue with a canceled waiter ahead of a live one. -/
def c7a : Checkout Nat × World Nat := checkout exW0 "foo" Ver.Http1

def c7b : Async (Pooled Nat) × Checkout Nat × World Nat :=
  checkoutPoll probeRdy c7a.2 c7a.1

def c7c : Checkout Nat × World Nat := checkout c7b.2.2 "foo" Ver.Http1

def c7d : Async (Pooled Nat) × Checkout Nat × World Nat :=
  checkoutPoll probeRdy c7c.2 c7c.1

def c7w : World Nat := cancelToken c7d.2.2 c7a.1.token

/-- A freshly installed Http1 entry to deposit into `c7w`. -/
def c7entry : Entry Nat := { value := 8, is_reused := false, status := c7w.nextCell }

def c7w2 : World Nat :=
  { c7w with cells := fun j => if j = c7w.nextCell then TimedKA.Busy else c7w.cells j,
             nextCell := c7w.nextCell + 1 }

/-- A checkout whose cancel token has been set. -/
def c10c : Checkout Nat × World Nat := checkout exW0 "foo" Ver.Http1

def c10w : World Nat := cancelToken c10c.2 c10c.1.token

/-! ### Framing lemmas -/

theorem setCell_pool {T : Type} (w : World T) (i : Nat) (v : TimedKA) :
    (setCell w i v).pool = w.pool := rfl

theorem setCell_cellGet_self {T : Type} (w : World T) (i : Nat) (v : TimedKA) :
    cellGet (setCell w i v) i = v := by
  simp [cellGet, setCell]

theorem setCell_cellGet_ne {T : Type} (w : World T) (i j : Nat) (v : TimedKA)
    (h : j ≠ i) : cellGet (setCell w i v) j = cellGet w j := by
  simp [cellGet, setCell, h]

theorem dropTx_pool {T : Type} (w : World T) (i : Nat) :
    (dropTx w i).pool = w.pool := by
  unfold dropTx
  split <;> rfl

theorem dropTx_cells {T : Type} (w : World T) (i : Nat) :
    (dropTx w i).cells = w.cells := by
  unfold dropTx
  split <;> rfl

theorem dropTx_tokens {T : Type} (w : World T) (i : Nat) :
    (dropTx w i).tokens = w.tokens := by
  unfold dropTx
  split <;> rfl

theorem dropTx_now {T : Type} (w : World T) (i : Nat) :
    (dropTx w i).now = w.now := by
  unfold dropTx
  split <;> rfl

theorem completeChan_pool {T : Type} (w : World T) (i : Nat) (e : Entry T) :
    (completeChan w i e).pool = w.pool := rfl

theorem dropRxOpt_pool {T : Type} (w : World T) (o : Option Nat) :
    (dropRxOpt w o).pool = w.pool := by
  unfold dropRxOpt
  split <;> rfl

/-- The fulfilment loop touches only the channel heap. -/
theorem drain_frame {T : Type} (ver : Ver) (e : Entry T) (q : List Waiter)
    (w : World T) :
    (drain ver e q w).2.2.pool = w.pool ∧
    (drain ver e q w).2.2.cells = w.cells ∧
    (drain ver e q w).2.2.tokens = w.tokens ∧
    (drain ver e q w).2.2.now = w.now := by
  induction q generalizing w with
  | nil => simp [drain]
  | cons wt rest ih =>
      by_cases hc : (txCanceled w wt.chan || tokCanceled w wt.token) = true
      · have h := ih (dropTx w wt.chan)
        simp only [drain, hc, if_true]
        exact ⟨h.1.trans (dropTx_pool w wt.chan),
               h.2.1.trans (dropTx_cells w wt.chan),
               h.2.2.1.trans (dropTx_tokens w wt.chan),
               h.2.2.2.trans (dropTx_now w wt.chan)⟩
      · by_cases hv : ver = Ver.Http1
        · simp [drain, hc, hv, completeChan, setChan]
        · have h := ih (completeChan w wt.chan e)
          simp only [drain, hc, if_false, hv, Bool.false_eq_true]
          exact ⟨h.1, h.2.1, h.2.2.1, h.2.2.2⟩

/-- The take scan touches only the status-cell heap. -/
theorem scanRev_frame {T : Type} (probe : T → PollReady) (ver : Ver)
    (timeout : Option Nat) (l : List (Entry T)) (w : World T) :
    (scanRev probe ver timeout l w).2.2.pool = w.pool ∧
    (scanRev probe ver timeout l w).2.2.chans = w.chans ∧
    (scanRev probe ver timeout l w).2.2.tokens = w.tokens ∧
    (scanRev probe ver timeout l w).2.2.now = w.now := by
  induction l generalizing w with
  | nil => simp [scanRev]
  | cons x rest ih =>
      unfold scanRev
      repeat' split
      all_goals first
        | exact ih w
        | simp [setCell]

theorem pushIdle_parked {T : Type} (w : World T) (key : Key) (e : Entry T) :
    (pushIdle w key e).pool.parked = w.pool.parked := rfl

theorem pushIdle_cells {T : Type} (w : World T) (key : Key) (e : Entry T) :
    (pushIdle w key e).cells = w.cells := rfl

theorem reuse_pool {T : Type} (w : World T) (key : Key) (e : Entry T) :
    (reuse w key e).2.pool = w.pool := by
  unfold reuse
  split <;> rfl

theorem putDone_cells {T : Type} (w2 : World T) (key : Key)
    (leftover : Option (Entry T)) (q2 : List Waiter) :
    (putDone w2 key leftover q2).cells = w2.cells := by
  unfold putDone
  repeat' split
  all_goals rfl

/-- `put` sets the deposited entry's own status cell to `Idle(now)` and
leaves the cell heap otherwise driven only by that write. -/
theorem put_cellGet {T : Type} (w : World T) (key : Key) (e : Entry T) :
    cellGet (put w key e) e.status = TimedKA.Idle w.now := by
  unfold put
  cases hq : mget (setCell w e.status (TimedKA.Idle w.now)).pool.parked key with
  | none =>
      simp only [hq]
      simp [pushIdle, cellGet, setCell]
  | some q =>
      simp only [hq]
      simp only [cellGet, putDone_cells,
        (drain_frame key.2 e q (setCell w e.status (TimedKA.Idle w.now))).2.1]
      simp [setCell]

/-! ### Claim C1 -/

/-- C1 (counterexample): the claim "for every key, `Pool::pooled`
returns a Pooled whose shared status cell holds Busy" fails for an
Http2 key: `pooled` runs `put`, whose first step writes `Idle(now)`
into the shared cell, so at the moment of return the cell is Idle. -/
theorem c1_pooled_busy_cex :
    cellGet exPooledH2.2 exPooledH2.1.entry.status ≠ TimedKA.Busy := by
  decide

/-- C1 (amended): `Pool::pooled` always returns a Pooled with
`is_reused = false`; the shared cell holds Busy at return for Http1
keys, while for Http2 keys the immediate `put` has set it to
`Idle(now)`. -/
theorem c1_pooled_status {T : Type} (w : World T) (key : Key) (v : T) :
    (pooled w key v).1.entry.is_reused = false ∧
    (key.2 = Ver.Http1 →
      cellGet (pooled w key v).2 (pooled w key v).1.entry.status = TimedKA.Busy) ∧
    (key.2 = Ver.Http2 →
      cellGet (pooled w key v).2 (pooled w key v).1.entry.status =
        TimedKA.Idle w.now) := by
  refine ⟨?_, ?_, ?_⟩
  · unfold pooled
    split <;> rfl
  · intro h
    simp [pooled, h, cellGet]
  · intro h
    have hne : ¬ key.2 = Ver.Http1 := by simp [h]
    simp only [pooled, hne, if_false]
    exact put_cellGet _ key _

/-- C1 witness: the amended theorem applied to a concrete Http2
install. -/
theorem c1_pooled_status_witness :
    cellGet (pooled exW0 exKeyH2 7).2 (pooled exW0 exKeyH2 7).1.entry.status =
      TimedKA.Idle exW0.now :=
  (c1_pooled_status exW0 exKeyH2 7).2.2 rfl

/-! ### Claim C2 -/

/-- C2 (counterexample): the claim "for an Http2 key, an idle entry
whose probe answers NotReady is handed out by `Pool::take`" fails:
`take` requires the probe to answer Ready regardless of version and
otherwise pops and discards the entry. -/
theorem c2_http2_notReady_cex :
    (take probeNRdy exPooledH2.2 exKeyH2).1 = none ∧
    mget (take probeNRdy exPooledH2.2 exKeyH2).2.pool.idle exKeyH2 = none := by
  decide

/-- C2 (amended): for every key, Http2 included, an unexpired idle
entry whose probe answers NotReady is discarded by `take`, not handed
out; with it alone in the bucket, `take` returns nothing and removes
the bucket. -/
theorem c2_notReady_discarded {T : Type} (probe : T → PollReady)
    (w : World T) (key : Key) (e : Entry T) (ts : Nat)
    (h1 : mget w.pool.idle key = some [e])
    (h2 : cellGet w e.status = TimedKA.Idle ts)
    (h3 : expires w.pool.timeout ts w.now = false)
    (h4 : probe e.value = PollReady.notReady) :
    (take probe w key).1 = none ∧
    mget (take probe w key).2.pool.idle key = none := by
  have hs : scanRev probe key.2 w.pool.timeout [e] w = (none, [], w) := by
    unfold scanRev
    rw [h2]
    simp [h3, h4, scanRev]
  simp [take, h1, hs, takeDone, removeBucket, mget_mdel_self]

/-- C2 witness: the amended theorem applied to the concrete Http2
entry. -/
theorem c2_notReady_discarded_witness :
    (take probeNRdy exPooledH2.2 exKeyH2).1 = none ∧
    mget (take probeNRdy exPooledH2.2 exKeyH2).2.pool.idle exKeyH2 = none :=
  c2_notReady_discarded probeNRdy exPooledH2.2 exKeyH2
    { value := 7, is_reused := false, status := 0 } 0
    (by decide) (by decide) (by decide) (by decide)

/-! ### Claim C3 -/

/-- C3 (counterexample): the claim "`idle` on an already-Idle Pooled
leaves the status cell, including its timestamp, unchanged" fails:
`Pooled::idle` writes `Idle(now)` into the cell before checking the
previous state, so the timestamp is refreshed. -/
theorem c3_idle_noop_cex :
    cellGet (pooledIdle c3w c3idle.2).1 c3idle.2.entry.status ≠
      cellGet c3w c3idle.2.entry.status := by
  decide

/-- C3 (amended): `idle` on an already-Idle Pooled leaves the pool
state (idle and parked maps), the handle (hence the reused flag), and
every other status cell unchanged, but refreshes the entry's own cell
to `Idle(now)`. -/
theorem c3_idle_already_idle {T : Type} (w : World T) (p : Pooled T) (ts : Nat)
    (h : cellGet w p.entry.status = TimedKA.Idle ts) :
    (pooledIdle w p).1.pool = w.pool ∧
    (pooledIdle w p).2 = p ∧
    cellGet (pooledIdle w p).1 p.entry.status = TimedKA.Idle w.now ∧
    ∀ j, j ≠ p.entry.status → cellGet (pooledIdle w p).1 j = cellGet w j := by
  have hst : pooledStatus w p = KA.Idle := by
    unfold pooledStatus
    rw [h]
  unfold pooledIdle
  rw [hst]
  simp only [if_pos rfl]
  exact ⟨rfl, rfl, setCell_cellGet_self w _ _,
    fun j hj => setCell_cellGet_ne w _ j _ hj⟩

/-- C3 witness: the amended theorem applied to a concrete already-idle
handle with the clock advanced by 5. -/
theorem c3_idle_already_idle_witness :
    (pooledIdle c3w c3idle.2).1.pool = c3w.pool ∧
    (pooledIdle c3w c3idle.2).2 = c3idle.2 ∧
    cellGet (pooledIdle c3w c3idle.2).1 c3idle.2.entry.status =
      TimedKA.Idle c3w.now ∧
    ∀ j, j ≠ c3idle.2.entry.status →
      cellGet (pooledIdle c3w c3idle.2).1 j = cellGet c3w j :=
  c3_idle_already_idle c3w c3idle.2 0 (by decide)

/-! ### Claim C9 -/

/-- C9: `Pooled::idle` on a non-Idle handle when the pool is gone
(weak upgrade fails) or keep-alive is disabled transitions the entry's
cell to Disabled and leaves the entire pool state — in particular the
idle map — untouched; the operation is total, surfacing no error. -/
theorem c9_idle_degrades_to_disable {T : Type} (w : World T) (p : Pooled T)
    (h1 : pooledStatus w p ≠ KA.Idle)
    (h2 : p.poolAlive = false ∨ is_enabled w = false) :
    cellGet (pooledIdle w p).1 p.entry.status = TimedKA.Disabled ∧
    (pooledIdle w p).1.pool = w.pool := by
  unfold pooledIdle
  rw [if_neg h1]
  rcases h2 with h2 | h2
  · simp [h2, pooledDisable, setCell, cellGet]
  · by_cases ha : p.poolAlive
    · simp only [is_enabled] at h2
      simp [ha, is_enabled, h2, pooledDisable, setCell, cellGet]
    · simp [ha, pooledDisable, setCell, cellGet]

/-- C9 witness: a Busy handle returned to a pool whose keep-alive flag
is false. -/
theorem c9_idle_degrades_to_disable_witness :
    cellGet (pooledIdle c9pair.2 c9pair.1).1 c9pair.1.entry.status =
      TimedKA.Disabled ∧
    (pooledIdle c9pair.2 c9pair.1).1.pool = c9pair.2.pool :=
  c9_idle_degrades_to_disable c9pair.2 c9pair.1 (by decide) (Or.inr (by decide))

/-! ### Claim C6 -/

/-- C6: an `Idle(ts)` entry is expired iff the pool's timeout is
`some d` and `now - ts > d`; with timeout `none` nothing expires by
age, so a probe-ready idle entry of any age is handed out by `take`. -/
theorem c6_expiration_spec {T : Type} (probe : T → PollReady) :
    (∀ (t : Option Nat) (idleAt n : Nat),
       expires t idleAt n = true ↔ ∃ d, t = some d ∧ n - idleAt > d) ∧
    (∀ (w : World T) (key : Key) (e : Entry T) (ts : Nat),
       w.pool.timeout = none →
       mget w.pool.idle key = some [e] →
       cellGet w e.status = TimedKA.Idle ts →
       probe e.value = PollReady.ready →
       ∃ p, (take probe w key).1 = some p ∧
         p.entry.value = e.value ∧ p.entry.is_reused = true) := by
  constructor
  · intro t idleAt n
    cases t <;> simp [expires]
  · intro w key e ts h0 h1 h2 h3
    have h3' : expires w.pool.timeout ts w.now = false := by
      rw [h0]
      rfl
    refine ⟨{ entry := { value := e.value, is_reused := true, status := e.status },
              key := key, poolAlive := true }, ?_, rfl, rfl⟩
    by_cases hv : key.2 = Ver.Http1
    · have hs : scanRev probe key.2 w.pool.timeout [e] w = (some e, [], w) := by
        unfold scanRev
        rw [h2]
        simp [h3', h3, hv]
      rw [hv] at hs
      simp [take, h1, hs, takeDone, reuse, hv]
    · have hs : scanRev probe key.2 w.pool.timeout [e] w =
          (some e, [e], setCell w e.status (TimedKA.Idle w.now)) := by
        unfold scanRev
        rw [h2]
        simp [h3', h3, hv]
      simp [take, h1, hs, takeDone, reuse, hv]

/-- C6 witness: an idle entry aged 1000 ticks in a pool with no
timeout is still handed out. -/
theorem c6_expiration_spec_witness :
    ∃ p, (take probeRdy c6w exKeyH1).1 = some p ∧
      p.entry.value = 41 ∧ p.entry.is_reused = true :=
  (c6_expiration_spec probeRdy).2 c6w exKeyH1
    { value := 41, is_reused := true, status := 0 } 0
    rfl (by decide) (by decide) rfl

/-! ### Claim C7 -/

theorem putDone_chans {T : Type} (w2 : World T) (key : Key)
    (leftover : Option (Entry T)) (q2 : List Waiter) :
    (putDone w2 key leftover q2).chans = w2.chans := by
  unfold putDone
  repeat' split
  all_goals rfl

/-- The parked bucket after `putDone` is exactly the drained queue,
removed when empty. -/
theorem putDone_parked_self {T : Type} (w2 : World T) (key : Key)
    (leftover : Option (Entry T)) (q2 : List Waiter) :
    mget (putDone w2 key leftover q2).pool.parked key =
      if q2.isEmpty then none else some q2 := by
  unfold putDone
  by_cases hq : q2.isEmpty
  · simp only [hq, if_true]
    split <;> simp [pushIdle, mget_mdel_self]
  · simp only [hq, if_false]
    split <;> simp [pushIdle, mget_mset_self, hq]

/-- Dropping a sender never flips `is_canceled` of any sender. -/
theorem dropTx_txCanceled {T : Type} (w : World T) (c i : Nat) :
    txCanceled (dropTx w c) i = txCanceled w i := by
  unfold dropTx
  split
  · rename_i hw
    simp only [chanGet] at hw
    by_cases h : i = c
    · subst h
      simp [txCanceled, chanGet, setChan, hw]
    · simp [txCanceled, chanGet, setChan, h]
  · rfl

/-- Waiter liveness is invariant under dropping some sender. -/
theorem dropTx_live {T : Type} (w : World T) (c : Nat) (y : Waiter) :
    liveWaiter (dropTx w c) y = liveWaiter w y := by
  have ht := dropTx_tokens w c
  simp [liveWaiter, dropTx_txCanceled, tokCanceled, ht]

/-- Once a channel holds `completed e`, the fulfilment loop (which only
drops canceled senders and completes other waiters with the same entry)
leaves it holding `completed e`. -/
theorem drain_chan_completed {T : Type} (ver : Ver) (e : Entry T)
    (q : List Waiter) (w : World T) (c : Nat)
    (h : chanGet w c = Chan.completed e) :
    chanGet (drain ver e q w).2.2 c = Chan.completed e := by
  induction q generalizing w with
  | nil => simpa [drain] using h
  | cons x rest ih =>
      unfold drain
      split
      · refine ih (dropTx w x.chan) ?_
        unfold dropTx
        split
        · rename_i hw
          by_cases hc : c = x.chan
          · rw [hc] at h
            rw [hw] at h
            cases h
          · simp only [chanGet, setChan, hc, if_false]
            exact h
        · exact h
      · split
        · by_cases hc : c = x.chan
          · subst hc
            simp [completeChan, chanGet, setChan]
          · simp only [completeChan, chanGet, setChan, hc, if_false]
            exact h
        · refine ih (completeChan w x.chan e) ?_
          by_cases hc : c = x.chan
          · subst hc
            simp [completeChan, chanGet, setChan]
          · simp only [completeChan, chanGet, setChan, hc, if_false]
            exact h

/-- For multiplexed keys the fulfilment loop never consumes the entry
and always drains the whole queue. -/
theorem drain_http2_total {T : Type} (ver : Ver) (e : Entry T)
    (q : List Waiter) (w : World T) (hv : ver ≠ Ver.Http1) :
    (drain ver e q w).1 = some e ∧ (drain ver e q w).2.1 = [] := by
  induction q generalizing w with
  | nil => simp [drain]
  | cons x rest ih =>
      unfold drain
      split
      · exact ih (dropTx w x.chan)
      all_goals exact ih (completeChan w x.chan e)

/-- The fulfilment loop hands the entry to the first live waiter: the
canceled prefix is discarded, the first live waiter's channel is
completed with the entry, and the loop then breaks (Http1, leaving the
rest of the queue in order) or drains the rest with clones (Http2). -/
theorem drain_first_live {T : Type} (ver : Ver) (e : Entry T)
    (wt : Waiter) (q₂ : List Waiter) :
    ∀ (q₁ : List Waiter) (w : World T),
    (∀ x ∈ q₁, liveWaiter w x = false) → liveWaiter w wt = true →
    chanGet (drain ver e (q₁ ++ wt :: q₂) w).2.2 wt.chan = Chan.completed e ∧
    (ver = Ver.Http1 → (drain ver e (q₁ ++ wt :: q₂) w).1 = none ∧
       (drain ver e (q₁ ++ wt :: q₂) w).2.1 = q₂) ∧
    (ver ≠ Ver.Http1 → (drain ver e (q₁ ++ wt :: q₂) w).1 = some e ∧
       (drain ver e (q₁ ++ wt :: q₂) w).2.1 = []) := by
  intro q₁
  induction q₁ with
  | nil =>
      intro w _ hlive
      have hcond : (txCanceled w wt.chan || tokCanceled w wt.token) = false := by
        cases htx : txCanceled w wt.chan <;> cases htok : tokCanceled w wt.token <;>
          simp_all [liveWaiter]
      by_cases hv : ver = Ver.Http1
      · subst hv
        simp [drain, hcond, completeChan, chanGet, setChan]
      · have hrec := drain_http2_total ver e q₂ (completeChan w wt.chan e) hv
        have hch : chanGet (completeChan w wt.chan e) wt.chan = Chan.completed e := by
          simp [completeChan, chanGet, setChan]
        have hkeep := drain_chan_completed ver e q₂ (completeChan w wt.chan e) wt.chan hch
        have hstep : drain ver e ([] ++ wt :: q₂) w =
            drain ver e q₂ (completeChan w wt.chan e) := by
          simp [drain, hcond, hv]
        rw [hstep]
        exact ⟨hkeep, fun h => absurd h hv, fun _ => hrec⟩
  | cons x rest ih =>
      intro w hdead hlive
      have hx : liveWaiter w x = false := hdead x (List.mem_cons_self x rest)
      have hcond : (txCanceled w x.chan || tokCanceled w x.token) = true := by
        cases htx : txCanceled w x.chan <;> cases htok : tokCanceled w x.token <;>
          simp_all [liveWaiter]
      have hdead' : ∀ y ∈ rest, liveWaiter (dropTx w x.chan) y = false := by
        intro y hy
        rw [dropTx_live]
        exact hdead y (List.mem_cons_of_mem x hy)
      have hlive' : liveWaiter (dropTx w x.chan) wt = true := by
        rw [dropTx_live]
        exact hlive
      have := ih (dropTx w x.chan) hdead' hlive'
      simpa [drain, hcond] using this

/-- C7: when `put` deposits an entry for a key whose parked queue is a
canceled prefix followed by a live waiter, that earliest live waiter's
channel receives the entry (a clone for Http2); the canceled prefix is
discarded; for Http1 the remainder of the queue is left in order
(removed when empty), and for Http2 the whole queue is drained. -/
theorem c7_put_fifo {T : Type} (w : World T) (key : Key) (e : Entry T)
    (q₁ : List Waiter) (wt : Waiter) (q₂ : List Waiter)
    (hq : mget w.pool.parked key = some (q₁ ++ wt :: q₂))
    (hdead : ∀ x ∈ q₁, liveWaiter w x = false)
    (hlive : liveWaiter w wt = true) :
    chanGet (put w key e) wt.chan = Chan.completed e ∧
    (key.2 = Ver.Http1 →
      mget (put w key e).pool.parked key =
        if q₂.isEmpty then none else some q₂) ∧
    (key.2 ≠ Ver.Http1 → mget (put w key e).pool.parked key = none) := by
  have hq1 : mget (setCell w e.status (TimedKA.Idle w.now)).pool.parked key =
      some (q₁ ++ wt :: q₂) := hq
  have hdead1 : ∀ x ∈ q₁,
      liveWaiter (setCell w e.status (TimedKA.Idle w.now)) x = false := hdead
  have hlive1 : liveWaiter (setCell w e.status (TimedKA.Idle w.now)) wt = true := hlive
  have hd := drain_first_live key.2 e wt q₂ q₁
    (setCell w e.status (TimedKA.Idle w.now)) hdead1 hlive1
  unfold put
  simp only [hq1]
  refine ⟨?_, ?_, ?_⟩
  · show (putDone _ key _ _).chans wt.chan = Chan.completed e
    rw [putDone_chans]
    exact hd.1
  · intro hv
    rw [putDone_parked_self, (hd.2.1 hv).2]
  · intro hv
    rw [putDone_parked_self, (hd.2.2 hv).2]
    rfl

/-- C7 witness: a queue of two waiters, the first canceled, receiving a
deposit; the live second waiter's channel is completed and the bucket is
removed. -/
theorem c7_put_fifo_witness :
    chanGet (put c7w2 exKeyH1 c7entry) (Waiter.mk 1 1).chan =
      Chan.completed c7entry ∧
    (exKeyH1.2 = Ver.Http1 →
      mget (put c7w2 exKeyH1 c7entry).pool.parked exKeyH1 =
        if ([] : List Waiter).isEmpty then none else some []) ∧
    (exKeyH1.2 ≠ Ver.Http1 →
      mget (put c7w2 exKeyH1 c7entry).pool.parked exKeyH1 = none) :=
  c7_put_fifo c7w2 exKeyH1 c7entry [⟨0, 0⟩] ⟨1, 1⟩ []
    (by decide) (by decide) (by decide)

/-! ### Claim C8 -/

/-- The take scan discards a prefix of unacceptable entries without
touching the world. -/
theorem scanRev_skip {T : Type} (probe : T → PollReady) (ver : Ver)
    (timeout : Option Nat) :
    ∀ (bad rest : List (Entry T)) (w : World T),
    (∀ x ∈ bad, acceptable probe timeout w x = false) →
    scanRev probe ver timeout (bad ++ rest) w = scanRev probe ver timeout rest w := by
  intro bad
  induction bad with
  | nil =>
      intro rest w _
      rfl
  | cons x tl ih =>
      intro rest w hbad
      have hx := hbad x (List.mem_cons_self x tl)
      have htl : ∀ y ∈ tl, acceptable probe timeout w y = false :=
        fun y hy => hbad y (List.mem_cons_of_mem x hy)
      have hrec := ih rest w htl
      rw [List.cons_append]
      cases hc : cellGet w x.status with
      | Idle ts =>
          by_cases he : expires timeout ts w.now = true
          · simp [scanRev, hc, he, hrec]
          · cases hp : probe x.value with
            | ready =>
                exfalso
                unfold acceptable at hx
                rw [hc] at hx
                have hx2 : (!(expires timeout ts w.now) &&
                    (match probe x.value with
                     | PollReady.ready => true
                     | _ => false)) = false := hx
                simp [he, hp] at hx2
            | notReady => simp [scanRev, hc, he, hp, hrec]
            | broken => simp [scanRev, hc, he, hp, hrec]
      | Busy => simp [scanRev, hc, hrec]
      | Disabled => simp [scanRev, hc, hrec]

/-- The take scan at an acceptable head hands that entry out: popped
for Http1, refreshed and pushed back for Http2. -/
theorem scanRev_found {T : Type} (probe : T → PollReady) (ver : Ver)
    (timeout : Option Nat) (rest : List (Entry T)) (w : World T) (e : Entry T)
    (hacc : acceptable probe timeout w e = true) :
    scanRev probe ver timeout (e :: rest) w =
      if ver = Ver.Http1 then (some e, rest, w)
      else (some e, e :: rest, setCell w e.status (TimedKA.Idle w.now)) := by
  unfold acceptable at hacc
  cases hc : cellGet w e.status with
  | Idle ts =>
      rw [hc] at hacc
      have hacc2 : (!(expires timeout ts w.now) &&
          (match probe e.value with
           | PollReady.ready => true
           | _ => false)) = true := hacc
      have he : expires timeout ts w.now = false := by
        cases hh : expires timeout ts w.now
        · rfl
        · rw [hh] at hacc2
          simp at hacc2
      have hp : probe e.value = PollReady.ready := by
        cases hh : probe e.value
        · rfl
        · rw [hh] at hacc2
          simp at hacc2
        · rw [hh] at hacc2
          simp at hacc2
      simp [scanRev, hc, he, hp]
  | Busy =>
      rw [hc] at hacc
      exact Bool.noConfusion hacc
  | Disabled =>
      rw [hc] at hacc
      exact Bool.noConfusion hacc

/-- C8: reuse among idle entries of a key is LIFO: with the bucket
`l₁ ++ [e] ++ l₂` (most recent deposits last), `e` acceptable and
everything deposited after it unacceptable, `take` hands out `e`
(reused flag set), having discarded all of `l₂`; what remains is `l₁`
(Http1; bucket removed when that is empty) or `l₁ ++ [e]` (Http2
push-back). -/
theorem c8_take_lifo {T : Type} (probe : T → PollReady) (w : World T) (key : Key)
    (l₁ : List (Entry T)) (e : Entry T) (l₂ : List (Entry T))
    (h1 : mget w.pool.idle key = some (l₁ ++ e :: l₂))
    (hacc : acceptable probe w.pool.timeout w e = true)
    (hbad : ∀ x ∈ l₂, acceptable probe w.pool.timeout w x = false) :
    (∃ p, (take probe w key).1 = some p ∧
       p.entry = { value := e.value, is_reused := true, status := e.status }) ∧
    (key.2 = Ver.Http1 →
       mget (take probe w key).2.pool.idle key =
         if l₁.isEmpty then none else some l₁) ∧
    (key.2 ≠ Ver.Http1 →
       mget (take probe w key).2.pool.idle key = some (l₁ ++ [e])) := by
  have hrev : (l₁ ++ e :: l₂).reverse = l₂.reverse ++ e :: l₁.reverse := by
    simp [List.reverse_append]
  have hbadrev : ∀ x ∈ l₂.reverse, acceptable probe w.pool.timeout w x = false :=
    fun x hx => hbad x (List.mem_reverse.mp hx)
  by_cases hv : key.2 = Ver.Http1
  · have hs : scanRev probe Ver.Http1 w.pool.timeout (l₂.reverse ++ e :: l₁.reverse) w =
        (some e, l₁.reverse, w) := by
      rw [scanRev_skip probe Ver.Http1 w.pool.timeout l₂.reverse _ w hbadrev,
        scanRev_found probe Ver.Http1 w.pool.timeout l₁.reverse w e hacc, if_pos rfl]
    refine ⟨⟨{ entry := { value := e.value, is_reused := true, status := e.status }, key := key, poolAlive := true }, ?_, rfl⟩, ?_, ?_⟩
    · simp [take, h1, hs, takeDone, reuse, hv]
    · intro _
      by_cases hl : l₁.isEmpty
      · simp [take, h1, hs, takeDone, reuse, hv, hl, removeBucket, setCell,
          mget_mdel_self]
      · simp [take, h1, hs, takeDone, reuse, hv, hl, setCell, mget_mset_self]
    · intro hv2
      exact absurd hv hv2
  · have hs : scanRev probe key.2 w.pool.timeout (l₂.reverse ++ e :: l₁.reverse) w =
        (some e, e :: l₁.reverse, setCell w e.status (TimedKA.Idle w.now)) := by
      rw [scanRev_skip probe key.2 w.pool.timeout l₂.reverse _ w hbadrev,
        scanRev_found probe key.2 w.pool.timeout l₁.reverse w e hacc, if_neg hv]
    refine ⟨⟨{ entry := { value := e.value, is_reused := true, status := e.status }, key := key, poolAlive := true }, ?_, rfl⟩, ?_, ?_⟩
    · simp [take, h1, hs, takeDone, reuse, hv]
    · intro hv2
      exact absurd hv2 hv
    · intro _
      simp [take, h1, hs, takeDone, reuse, hv, setCell, mget_mset_self]

/-- C8 witness: bucket `[41, 5, 99]` with `99` (the most recent
deposit) expired and `5` acceptable: `take` hands out `5` and leaves
`[41]`. -/
theorem c8_take_lifo_witness :
    (∃ p, (take probeRdy c8w exKeyH1).1 = some p ∧
       p.entry = ({ value := 5, is_reused := true,
                    status := 1 } : Entry Nat)) ∧
    (exKeyH1.2 = Ver.Http1 →
       mget (take probeRdy c8w exKeyH1).2.pool.idle exKeyH1 =
         if [({ value := 41, is_reused := true, status := 0 } : Entry Nat)].isEmpty
         then none
         else some [({ value := 41, is_reused := true, status := 0 } : Entry Nat)]) ∧
    (exKeyH1.2 ≠ Ver.Http1 →
       mget (take probeRdy c8w exKeyH1).2.pool.idle exKeyH1 =
         some ([({ value := 41, is_reused := true, status := 0 } : Entry Nat)] ++
           [({ value := 5, is_reused := true, status := 1 } : Entry Nat)])) :=
  c8_take_lifo probeRdy c8w exKeyH1
    [({ value := 41, is_reused := true, status := 0 } : Entry Nat)]
    ({ value := 5, is_reused := true, status := 1 } : Entry Nat)
    [({ value := 99, is_reused := true, status := 2 } : Entry Nat)]
    (by decide) (by decide) (by decide)

/-! ### Claim C10 -/

theorem takeDone_parked {T : Type} (w2 : World T) (key : Key)
    (found : Option (Entry T)) (rem : List (Entry T)) :
    (takeDone w2 key found rem).2.pool.parked = w2.pool.parked := by
  unfold takeDone
  cases found with
  | none => simp [removeBucket]
  | some e =>
      simp only []
      rw [reuse_pool]
      split <;> rfl

/-- `take` never touches the parked map. -/
theorem take_parked {T : Type} (probe : T → PollReady) (w : World T) (key : Key) :
    (take probe w key).2.pool.parked = w.pool.parked := by
  unfold take
  cases hq : mget w.pool.idle key with
  | none => rfl
  | some l =>
      simp only []
      rw [takeDone_parked]
      exact congrArg PoolInner.parked
        (scanRev_frame probe key.2 w.pool.timeout l.reverse w).1

theorem takeDone_tokens {T : Type} (w2 : World T) (key : Key)
    (found : Option (Entry T)) (rem : List (Entry T)) :
    (takeDone w2 key found rem).2.tokens = w2.tokens := by
  unfold takeDone
  simp only [reuse]
  repeat' split
  all_goals rfl

/-- `take` never touches the cancel tokens. -/
theorem take_tokens {T : Type} (probe : T → PollReady) (w : World T) (key : Key) :
    (take probe w key).2.tokens = w.tokens := by
  unfold take
  cases hq : mget w.pool.idle key with
  | none => rfl
  | some l =>
      simp only []
      rw [takeDone_tokens]
      exact (scanRev_frame probe key.2 w.pool.timeout l.reverse w).2.2.1

theorem dropRxOpt_tokens {T : Type} (w : World T) (o : Option Nat) :
    (dropRxOpt w o).tokens = w.tokens := by
  unfold dropRxOpt
  split <;> rfl

/-- Phase A of `Checkout::poll` never touches the pool maps. -/
theorem pollParked_pool {T : Type} (probe : T → PollReady) (w : World T)
    (c : Checkout T) : (pollParked probe w c).2.2.pool = w.pool := by
  unfold pollParked
  repeat' split
  all_goals first
    | rfl
    | exact dropRxOpt_pool w c.parked
    | exact reuse_pool w c.key _

/-- Phase A returns a checkout for the same key. -/
theorem pollParked_key {T : Type} (probe : T → PollReady) (w : World T)
    (c : Checkout T) : (pollParked probe w c).2.1.key = c.key := by
  unfold pollParked
  repeat' split
  all_goals rfl

/-- C10: polling a Checkout whose CancelToken is set never registers a
waiter: the parked map is unchanged, any held receiver is dropped from
the handle, and when the `take` attempt fails the poll answers
NotReady. -/
theorem c10_canceled_poll_no_park {T : Type} (probe : T → PollReady)
    (w : World T) (c : Checkout T) (h : tokCanceled w c.token = true) :
    (checkoutPoll probe w c).2.2.pool.parked = w.pool.parked ∧
    (checkoutPoll probe w c).2.1.parked = none ∧
    ((take probe (dropRxOpt w c.parked) c.key).1 = none →
      (checkoutPoll probe w c).1 = Async.notReady) := by
  have ha : pollParked probe w c =
      (ParkPoll.notParked, { c with parked := none }, dropRxOpt w c.parked) := by
    unfold pollParked
    simp [h]
  have htok : tokCanceled (take probe (dropRxOpt w c.parked) c.key).2 c.token = true := by
    unfold tokCanceled
    rw [take_tokens, dropRxOpt_tokens]
    exact h
  cases ht : (take probe (dropRxOpt w c.parked) c.key).1 with
  | none =>
      have hpk : checkoutPark (take probe (dropRxOpt w c.parked) c.key).2
          { c with parked := none } =
          ((take probe (dropRxOpt w c.parked) c.key).2, { c with parked := none }) := by
        unfold checkoutPark
        simp [htok]
      refine ⟨?_, ?_, ?_⟩
      · simp only [checkoutPoll, ha, ht, hpk]
        rw [take_parked, dropRxOpt_pool]
      · simp [checkoutPoll, ha, ht, hpk]
      · intro _
        simp [checkoutPoll, ha, ht, hpk]
  | some p =>
      refine ⟨?_, ?_, ?_⟩
      · simp only [checkoutPoll, ha, ht]
        rw [take_parked, dropRxOpt_pool]
      · simp [checkoutPoll, ha, ht]
      · intro hnone
        exact Option.noConfusion hnone

/-- C10 witness: a freshly canceled checkout polled against an empty
pool: nothing is parked and the poll answers NotReady. -/
theorem c10_canceled_poll_no_park_witness :
    (checkoutPoll probeRdy c10w c10c.1).2.2.pool.parked = c10w.pool.parked ∧
    (checkoutPoll probeRdy c10w c10c.1).2.1.parked = none ∧
    ((take probeRdy (dropRxOpt c10w c10c.1.parked) c10c.1.key).1 = none →
      (checkoutPoll probeRdy c10w c10c.1).1 = Async.notReady) :=
  c10_canceled_poll_no_park probeRdy c10w c10c.1 (by decide)

/-! ### Claims C4 and C5: map invariants -/

theorem putDone_parked_ne {T : Type} (w2 : World T) (key k : Key)
    (leftover : Option (Entry T)) (q2 : List Waiter) (hk : k ≠ key) :
    mget (putDone w2 key leftover q2).pool.parked k = mget w2.pool.parked k := by
  unfold putDone
  repeat' split
  all_goals simp [pushIdle, mget_mdel_ne _ _ _ hk, mget_mset_ne _ _ _ _ hk]

theorem putDone_idle_none {T : Type} (w2 : World T) (key : Key)
    (q2 : List Waiter) :
    (putDone w2 key none q2).pool.idle = w2.pool.idle := by
  unfold putDone
  split <;> rfl

theorem putDone_idle_some {T : Type} (w2 : World T) (key : Key) (e2 : Entry T)
    (q2 : List Waiter) :
    (putDone w2 key (some e2) q2).pool.idle =
      mset w2.pool.idle key (((mget w2.pool.idle key).getD []) ++ [e2]) := by
  unfold putDone
  split <;> rfl

/-- If the fulfilment loop returns the entry unconsumed, it drained the
whole queue. -/
theorem drain_some_nil {T : Type} (ver : Ver) (e : Entry T) :
    ∀ (q : List Waiter) (w : World T) (e2 : Entry T),
    (drain ver e q w).1 = some e2 → (drain ver e q w).2.1 = [] := by
  intro q
  induction q with
  | nil =>
      intro w e2 _
      rfl
  | cons x rest ih =>
      intro w e2 hl
      unfold drain at hl ⊢
      split at hl
      · rename_i hc
        rw [if_pos hc]
        exact ih (dropTx w x.chan) e2 hl
      · rename_i hc
        rw [if_neg hc]
        split at hl
        · exact Option.noConfusion hl
        · rename_i hv
          rw [if_neg hv]
          exact ih (completeChan w x.chan e) e2 hl

/-- `put` preserves the no-empty-buckets invariant. -/
theorem invNE_put {T : Type} (w : World T) (key : Key) (e : Entry T)
    (h : invNoEmptyBuckets w) : invNoEmptyBuckets (put w key e) := by
  obtain ⟨hi, hp⟩ := h
  unfold put
  cases hq : mget (setCell w e.status (TimedKA.Idle w.now)).pool.parked key with
  | none =>
      simp only [hq]
      constructor
      · intro k l hml
        by_cases hk : k = key
        · subst hk
          rw [show mget (pushIdle (setCell w e.status (TimedKA.Idle w.now)) k e).pool.idle k
              = some (((mget w.pool.idle k).getD []) ++ [e]) from mget_mset_self _ _ _] at hml
          cases hml
          simp
        · rw [show mget (pushIdle (setCell w e.status (TimedKA.Idle w.now)) key e).pool.idle k
              = mget w.pool.idle k from mget_mset_ne _ _ _ _ hk] at hml
          exact hi k l hml
      · exact hp
  | some q =>
      simp only [hq]
      constructor
      · intro k l hml
        cases hlo : (drain key.2 e q (setCell w e.status (TimedKA.Idle w.now))).1 with
        | none =>
            rw [hlo, putDone_idle_none] at hml
            have hpool := (drain_frame key.2 e q
              (setCell w e.status (TimedKA.Idle w.now))).1
            rw [hpool] at hml
            exact hi k l hml
        | some e2 =>
            rw [hlo, putDone_idle_some] at hml
            have hpool := (drain_frame key.2 e q
              (setCell w e.status (TimedKA.Idle w.now))).1
            by_cases hk : k = key
            · subst hk
              rw [mget_mset_self] at hml
              cases hml
              simp
            · rw [mget_mset_ne _ _ _ _ hk, hpool] at hml
              exact hi k l hml
      · intro k l hml
        by_cases hk : k = key
        · subst hk
          rw [putDone_parked_self] at hml
          split at hml
          · exact Option.noConfusion hml
          · rename_i hne
            cases hml
            intro hcontra
            rw [hcontra] at hne
            exact hne rfl
        · rw [putDone_parked_ne _ _ _ _ _ hk] at hml
          have hpool := (drain_frame key.2 e q
            (setCell w e.status (TimedKA.Idle w.now))).1
          rw [hpool] at hml
          exact hp k l hml

/-- `put` preserves the not-both-non-empty invariant. -/
theorem invNB_put {T : Type} (w : World T) (key : Key) (e : Entry T)
    (h : invNotBothNonempty w) : invNotBothNonempty (put w key e) := by
  unfold put
  cases hq : mget (setCell w e.status (TimedKA.Idle w.now)).pool.parked key with
  | none =>
      simp only [hq]
      intro k li lp hli hlp
      by_cases hk : k = key
      · subst hk
        have hq2 : mget w.pool.parked k = none := hq
        rw [show (pushIdle (setCell w e.status (TimedKA.Idle w.now)) k e).pool.parked
            = w.pool.parked from rfl, hq2] at hlp
        exact Option.noConfusion hlp
      · rw [show mget (pushIdle (setCell w e.status (TimedKA.Idle w.now)) key e).pool.idle k
            = mget w.pool.idle k from mget_mset_ne _ _ _ _ hk] at hli
        exact h k li lp hli hlp
  | some q =>
      simp only [hq]
      intro k li lp hli hlp
      have hpool := (drain_frame key.2 e q
        (setCell w e.status (TimedKA.Idle w.now))).1
      by_cases hk : k = key
      · subst hk
        rw [putDone_parked_self] at hlp
        split at hlp
        · exact Option.noConfusion hlp
        · rename_i hne
          cases hlp
          -- the queue was not drained empty, so the entry was consumed
          cases hlo : (drain k.2 e q (setCell w e.status (TimedKA.Idle w.now))).1 with
          | some e2 =>
              have := drain_some_nil k.2 e q
                (setCell w e.status (TimedKA.Idle w.now)) e2 hlo
              rw [this] at hne
              exact absurd rfl hne
          | none =>
              rw [hlo, putDone_idle_none, hpool] at hli
              rcases h k li q hli hq with hli0 | hq0
              · exact Or.inl hli0
              · subst hq0
                have : (drain k.2 e [] (setCell w e.status (TimedKA.Idle w.now))).1
                    = some e := rfl
                rw [this] at hlo
                exact Option.noConfusion hlo
      · cases hlo : (drain key.2 e q (setCell w e.status (TimedKA.Idle w.now))).1 with
        | none =>
            rw [hlo, putDone_idle_none, hpool] at hli
            rw [hlo, putDone_parked_ne _ _ _ _ _ hk, hpool] at hlp
            exact h k li lp hli hlp
        | some e2 =>
            rw [hlo, putDone_idle_some] at hli
            rw [mget_mset_ne _ _ _ _ hk, hpool] at hli
            rw [hlo, putDone_parked_ne _ _ _ _ _ hk, hpool] at hlp
            exact h k li lp hli hlp

theorem takeDone_idle_ne {T : Type} (w2 : World T) (key k : Key)
    (found : Option (Entry T)) (rem : List (Entry T)) (hk : k ≠ key) :
    mget (takeDone w2 key found rem).2.pool.idle k = mget w2.pool.idle k := by
  unfold takeDone
  simp only [reuse]
  repeat' split
  all_goals simp [removeBucket, setCell, mget_mdel_ne _ _ _ hk, mget_mset_ne _ _ _ _ hk]

/-- The idle bucket `take` leaves behind for its own key: nothing on a
failed scan, the non-empty remainder otherwise. -/
theorem takeDone_idle_self {T : Type} (w2 : World T) (key : Key)
    (found : Option (Entry T)) (rem : List (Entry T)) :
    mget (takeDone w2 key found rem).2.pool.idle key =
      match found with
      | none => none
      | some _ => if rem.isEmpty then none else some rem := by
  unfold takeDone
  simp only [reuse]
  repeat' split
  all_goals simp_all [removeBucket, setCell, mget_mdel_self, mget_mset_self]

theorem takeDone_fst_none {T : Type} (w2 : World T) (key : Key)
    (rem : List (Entry T)) : (takeDone w2 key none rem).1 = none := rfl

theorem takeDone_fst_some {T : Type} (w2 : World T) (key : Key) (e : Entry T)
    (rem : List (Entry T)) : (takeDone w2 key (some e) rem).1.isSome = true := rfl

/-- `take` leaves other keys' idle buckets alone. -/
theorem take_idle_ne {T : Type} (probe : T → PollReady) (w : World T)
    (key k : Key) (hk : k ≠ key) :
    mget (take probe w key).2.pool.idle k = mget w.pool.idle k := by
  unfold take
  cases hq : mget w.pool.idle key with
  | none => rfl
  | some l =>
      simp only []
      rw [takeDone_idle_ne _ _ _ _ _ hk]
      exact congrArg (fun x => mget x.idle k)
        (scanRev_frame probe key.2 w.pool.timeout l.reverse w).1

/-- Any idle bucket `take` leaves behind at its own key is non-empty. -/
theorem take_idle_self_ne {T : Type} (probe : T → PollReady) (w : World T)
    (key : Key) :
    ∀ l, mget (take probe w key).2.pool.idle key = some l → l ≠ [] := by
  intro l hml
  unfold take at hml
  cases hq : mget w.pool.idle key with
  | none =>
      rw [hq] at hml
      simp only [] at hml
      rw [hq] at hml
      exact Option.noConfusion hml
  | some l0 =>
      rw [hq] at hml
      simp only [] at hml
      rw [takeDone_idle_self] at hml
      cases hf : (scanRev probe key.2 w.pool.timeout l0.reverse w).1 with
      | none =>
          rw [hf] at hml
          exact Option.noConfusion hml
      | some e =>
          rw [hf] at hml
          simp only [] at hml
          split at hml
          · exact Option.noConfusion hml
          · rename_i hne
            cases hml
            intro hcontra
            rw [hcontra] at hne
            exact hne rfl

/-- A failed `take` leaves no idle bucket at its key. -/
theorem take_none_idle {T : Type} (probe : T → PollReady) (w : World T)
    (key : Key) (h : (take probe w key).1 = none) :
    mget (take probe w key).2.pool.idle key = none := by
  unfold take at h ⊢
  cases hq : mget w.pool.idle key with
  | none => rw [hq]
  | some l =>
      simp only [] at h ⊢
      rw [takeDone_idle_self]
      cases hf : (scanRev probe key.2 w.pool.timeout l.reverse w).1 with
      | none => rfl
      | some e =>
          rw [hq] at h
          simp only [] at h
          rw [hf] at h
          have hs := takeDone_fst_some
            (scanRev probe key.2 w.pool.timeout l.reverse w).2.2 key e
            (scanRev probe key.2 w.pool.timeout l.reverse w).2.1.reverse
          rw [h] at hs
          exact Bool.noConfusion hs

/-- A bucket holding an empty list is removed by `take`. -/
theorem take_empty_bucket {T : Type} (probe : T → PollReady) (w : World T)
    (key : Key) (hq : mget w.pool.idle key = some []) :
    mget (take probe w key).2.pool.idle key = none := by
  simp [take, hq, takeDone_idle_self, scanRev]

/-- An absent bucket means `take` does nothing at all. -/
theorem take_no_bucket {T : Type} (probe : T → PollReady) (w : World T)
    (key : Key) (hq : mget w.pool.idle key = none) :
    (take probe w key).2 = w := by
  unfold take
  rw [hq]

/-- `take` preserves the no-empty-buckets invariant. -/
theorem invNE_take {T : Type} (probe : T → PollReady) (w : World T) (key : Key)
    (h : invNoEmptyBuckets w) : invNoEmptyBuckets (take probe w key).2 := by
  obtain ⟨hi, hp⟩ := h
  constructor
  · intro k l hml
    by_cases hk : k = key
    · subst hk
      exact take_idle_self_ne probe w k l hml
    · rw [take_idle_ne probe w key k hk] at hml
      exact hi k l hml
  · intro k l hml
    rw [take_parked] at hml
    exact hp k l hml

/-- `take` preserves the not-both-non-empty invariant. -/
theorem invNB_take {T : Type} (probe : T → PollReady) (w : World T) (key : Key)
    (h : invNotBothNonempty w) : invNotBothNonempty (take probe w key).2 := by
  intro k li lp hli hlp
  rw [take_parked] at hlp
  by_cases hk : k = key
  · subst hk
    cases hq : mget w.pool.idle k with
    | none =>
        rw [take_no_bucket probe w k hq, hq] at hli
        exact Option.noConfusion hli
    | some l0 =>
        rcases h k l0 lp hq hlp with hl0 | hlp0
        · subst hl0
          rw [take_empty_bucket probe w k hq] at hli
          exact Option.noConfusion hli
        · exact Or.inr hlp0
  · rw [take_idle_ne probe w key k hk] at hli
    exact h k li lp hli hlp

theorem invNE_of_pool_eq {T : Type} (w2 w : World T) (h : w2.pool = w.pool)
    (hw : invNoEmptyBuckets w) : invNoEmptyBuckets w2 := by
  unfold invNoEmptyBuckets at hw ⊢
  rw [h]
  exact hw

theorem invNB_of_pool_eq {T : Type} (w2 w : World T) (h : w2.pool = w.pool)
    (hw : invNotBothNonempty w) : invNotBothNonempty w2 := by
  unfold invNotBothNonempty at hw ⊢
  rw [h]
  exact hw

/-- `Checkout::park` preserves the no-empty-buckets invariant: it only
ever appends a waiter. -/
theorem invNE_checkoutPark {T : Type} (w : World T) (c : Checkout T)
    (h : invNoEmptyBuckets w) : invNoEmptyBuckets (checkoutPark w c).1 := by
  unfold checkoutPark
  split
  · obtain ⟨hi, hp⟩ := h
    constructor
    · intro k l hml
      exact hi k l hml
    · intro k l hml
      unfold poolPark at hml
      by_cases hk : k = c.key
      · subst hk
        rw [mget_mset_self] at hml
        cases hml
        simp
      · rw [mget_mset_ne _ _ _ _ hk] at hml
        exact hp k l hml
  · exact h

/-- `Checkout::park` preserves not-both-non-empty when the idle bucket
for the key is gone (which `Checkout::poll` guarantees: it parks only
after a failed `take`). -/
theorem invNB_checkoutPark {T : Type} (w : World T) (c : Checkout T)
    (h : invNotBothNonempty w) (hidle : mget w.pool.idle c.key = none) :
    invNotBothNonempty (checkoutPark w c).1 := by
  unfold checkoutPark
  split
  · intro k li lp hli hlp
    by_cases hk : k = c.key
    · have hli2 : mget w.pool.idle k = some li := hli
      rw [hk, hidle] at hli2
      exact Option.noConfusion hli2
    · have hlp2 : mget w.pool.parked k = some lp := by
        have h0 := hlp
        unfold poolPark at h0
        rwa [mget_mset_ne _ _ _ _ hk] at h0
      exact h k li lp hli hlp2
  · exact h

/-- `Checkout::poll` preserves the no-empty-buckets invariant. -/
theorem invNE_checkoutPoll {T : Type} (probe : T → PollReady) (w : World T)
    (c : Checkout T) (h : invNoEmptyBuckets w) :
    invNoEmptyBuckets (checkoutPoll probe w c).2.2 := by
  have hA : invNoEmptyBuckets (pollParked probe w c).2.2 :=
    invNE_of_pool_eq _ _ (pollParked_pool probe w c) h
  cases ha : (pollParked probe w c).1 with
  | ready p => simpa [checkoutPoll, ha] using hA
  | notReady => simpa [checkoutPoll, ha] using hA
  | notParked =>
      have hT := invNE_take probe (pollParked probe w c).2.2
        (pollParked probe w c).2.1.key hA
      cases ht : (take probe (pollParked probe w c).2.2
          (pollParked probe w c).2.1.key).1 with
      | some p => simpa [checkoutPoll, ha, ht] using hT
      | none =>
          have hP := invNE_checkoutPark
            (take probe (pollParked probe w c).2.2 (pollParked probe w c).2.1.key).2
            (pollParked probe w c).2.1 hT
          simpa [checkoutPoll, ha, ht] using hP

/-- `Checkout::poll` preserves the not-both-non-empty invariant:
parking only happens straight after a failed `take`, which removed the
idle bucket. -/
theorem invNB_checkoutPoll {T : Type} (probe : T → PollReady) (w : World T)
    (c : Checkout T) (h : invNotBothNonempty w) :
    invNotBothNonempty (checkoutPoll probe w c).2.2 := by
  have hA : invNotBothNonempty (pollParked probe w c).2.2 :=
    invNB_of_pool_eq _ _ (pollParked_pool probe w c) h
  cases ha : (pollParked probe w c).1 with
  | ready p => simpa [checkoutPoll, ha] using hA
  | notReady => simpa [checkoutPoll, ha] using hA
  | notParked =>
      have hT := invNB_take probe (pollParked probe w c).2.2
        (pollParked probe w c).2.1.key hA
      cases ht : (take probe (pollParked probe w c).2.2
          (pollParked probe w c).2.1.key).1 with
      | some p => simpa [checkoutPoll, ha, ht] using hT
      | none =>
          have hidle := take_none_idle probe (pollParked probe w c).2.2
            (pollParked probe w c).2.1.key ht
          have hP := invNB_checkoutPark
            (take probe (pollParked probe w c).2.2 (pollParked probe w c).2.1.key).2
            (pollParked probe w c).2.1 hT hidle
          simpa [checkoutPoll, ha, ht] using hP

theorem dropTxs_pool {T : Type} :
    ∀ (dead : List Waiter) (w : World T),
    (dead.foldl (fun acc wt => dropTx acc wt.chan) w).pool = w.pool := by
  intro dead
  induction dead with
  | nil =>
      intro w
      rfl
  | cons x rest ih =>
      intro w
      rw [List.foldl_cons, ih, dropTx_pool]

theorem clean_parked_idle {T : Type} (w : World T) (key : Key) :
    (clean_parked w key).pool.idle = w.pool.idle := by
  unfold clean_parked
  cases hq : mget w.pool.parked key with
  | none => rfl
  | some q =>
      simp only []
      have h0 := dropTxs_pool
        (q.filter (fun wt => txCanceled w wt.chan || tokCanceled w wt.token)) w
      split
      · have h1 := congrArg PoolInner.idle h0
        exact h1
      · have h1 := congrArg PoolInner.idle h0
        exact h1

theorem clean_parked_parked_self {T : Type} (w : World T) (key : Key) :
    mget (clean_parked w key).pool.parked key =
      match mget w.pool.parked key with
      | none => none
      | some q =>
          if (q.filter
              (fun wt => !(txCanceled w wt.chan || tokCanceled w wt.token))).isEmpty
          then none
          else some (q.filter
              (fun wt => !(txCanceled w wt.chan || tokCanceled w wt.token))) := by
  unfold clean_parked
  cases hq : mget w.pool.parked key with
  | none => exact hq
  | some q =>
      simp only []
      by_cases hl : (q.filter
          (fun wt => !(txCanceled w wt.chan || tokCanceled w wt.token))).isEmpty
      · simp only [hl, if_true]
        have h0 : ((q.filter
            (fun wt => txCanceled w wt.chan || tokCanceled w wt.token)).foldl
            (fun acc wt => dropTx acc wt.chan) w).pool = w.pool := dropTxs_pool _ w
        exact mget_mdel_self _ _
      · simp only [hl, if_false]
        exact mget_mset_self _ _ _

theorem clean_parked_parked_ne {T : Type} (w : World T) (key k : Key)
    (hk : k ≠ key) :
    mget (clean_parked w key).pool.parked k = mget w.pool.parked k := by
  unfold clean_parked
  cases hq : mget w.pool.parked key with
  | none => rfl
  | some q =>
      simp only []
      have h0 := dropTxs_pool
        (q.filter (fun wt => txCanceled w wt.chan || tokCanceled w wt.token)) w
      by_cases hl : (q.filter
          (fun wt => !(txCanceled w wt.chan || tokCanceled w wt.token))).isEmpty
      · simp only [hl, if_true]
        have h1 := (mget_mdel_ne
          ((q.filter (fun wt => txCanceled w wt.chan || tokCanceled w wt.token)).foldl
            (fun acc wt => dropTx acc wt.chan) w).pool.parked key k hk).trans
          (congrArg (fun x => mget x.parked k) h0)
        exact h1
      · simp only [hl, if_false]
        have h1 := (mget_mset_ne
          ((q.filter (fun wt => txCanceled w wt.chan || tokCanceled w wt.token)).foldl
            (fun acc wt => dropTx acc wt.chan) w).pool.parked key k
          (q.filter (fun wt => !(txCanceled w wt.chan || tokCanceled w wt.token))) hk).trans
          (congrArg (fun x => mget x.parked k) h0)
        exact h1

theorem invNE_clean {T : Type} (w : World T) (key : Key)
    (h : invNoEmptyBuckets w) : invNoEmptyBuckets (clean_parked w key) := by
  obtain ⟨hi, hp⟩ := h
  constructor
  · intro k l hml
    rw [clean_parked_idle] at hml
    exact hi k l hml
  · intro k l hml
    by_cases hk : k = key
    · subst hk
      rw [clean_parked_parked_self] at hml
      cases hq : mget w.pool.parked k with
      | none =>
          rw [hq] at hml
          exact Option.noConfusion hml
      | some q =>
          rw [hq] at hml
          simp only [] at hml
          split at hml
          · exact Option.noConfusion hml
          · rename_i hne
            cases hml
            intro hcontra
            rw [hcontra] at hne
            exact hne rfl
    · rw [clean_parked_parked_ne _ _ _ hk] at hml
      exact hp k l hml

theorem invNB_clean {T : Type} (w : World T) (key : Key)
    (h : invNotBothNonempty w) : invNotBothNonempty (clean_parked w key) := by
  intro k li lp hli hlp
  rw [clean_parked_idle] at hli
  by_cases hk : k = key
  · subst hk
    rw [clean_parked_parked_self] at hlp
    cases hq : mget w.pool.parked k with
    | none =>
        rw [hq] at hlp
        exact Option.noConfusion hlp
    | some q =>
        rw [hq] at hlp
        simp only [] at hlp
        split at hlp
        · exact Option.noConfusion hlp
        · rename_i hne
          cases hlp
          rcases h k li q hli hq with hli0 | hq0
          · exact Or.inl hli0
          · subst hq0
            simp at hne
  · rw [clean_parked_parked_ne _ _ _ hk] at hlp
    exact h k li lp hli hlp

theorem invNE_checkoutDrop {T : Type} (w : World T) (c : Checkout T)
    (h : invNoEmptyBuckets w) : invNoEmptyBuckets (checkoutDrop w c) :=
  invNE_clean _ _ (invNE_of_pool_eq _ _ (dropRxOpt_pool w c.parked) h)

theorem invNB_checkoutDrop {T : Type} (w : World T) (c : Checkout T)
    (h : invNotBothNonempty w) : invNotBothNonempty (checkoutDrop w c) :=
  invNB_clean _ _ (invNB_of_pool_eq _ _ (dropRxOpt_pool w c.parked) h)

theorem invNE_pooledIdle {T : Type} (w : World T) (p : Pooled T)
    (h : invNoEmptyBuckets w) : invNoEmptyBuckets (pooledIdle w p).1 := by
  unfold pooledIdle
  by_cases hst : pooledStatus w p = KA.Idle
  · simp only [hst, if_pos rfl]
    exact invNE_of_pool_eq _ _ (setCell_pool w _ _) h
  · rw [if_neg hst]
    by_cases ha : p.poolAlive
    · simp only [ha, if_pos rfl]
      by_cases he : is_enabled (setCell w p.entry.status (TimedKA.Idle w.now)) = true
      · rw [if_pos he]
        exact invNE_put _ _ _ (invNE_of_pool_eq _ _ (setCell_pool w _ _) h)
      · rw [if_neg he]
        exact invNE_of_pool_eq _ _ (by simp [pooledDisable, setCell]) h
    · simp only [ha, Bool.false_eq_true, if_false]
      exact invNE_of_pool_eq _ _ (by simp [pooledDisable, setCell]) h

theorem invNB_pooledIdle {T : Type} (w : World T) (p : Pooled T)
    (h : invNotBothNonempty w) : invNotBothNonempty (pooledIdle w p).1 := by
  unfold pooledIdle
  by_cases hst : pooledStatus w p = KA.Idle
  · simp only [hst, if_pos rfl]
    exact invNB_of_pool_eq _ _ (setCell_pool w _ _) h
  · rw [if_neg hst]
    by_cases ha : p.poolAlive
    · simp only [ha, if_pos rfl]
      by_cases he : is_enabled (setCell w p.entry.status (TimedKA.Idle w.now)) = true
      · rw [if_pos he]
        exact invNB_put _ _ _ (invNB_of_pool_eq _ _ (setCell_pool w _ _) h)
      · rw [if_neg he]
        exact invNB_of_pool_eq _ _ (by simp [pooledDisable, setCell]) h
    · simp only [ha, Bool.false_eq_true, if_false]
      exact invNB_of_pool_eq _ _ (by simp [pooledDisable, setCell]) h

theorem invNE_pooled {T : Type} (w : World T) (key : Key) (v : T)
    (h : invNoEmptyBuckets w) : invNoEmptyBuckets (pooled w key v).2 := by
  unfold pooled
  by_cases hv : key.2 = Ver.Http1
  · rw [if_pos hv]
    exact invNE_of_pool_eq _ _ rfl h
  · rw [if_neg hv]
    exact invNE_put _ _ _ (invNE_of_pool_eq _ _ rfl h)

theorem invNB_pooled {T : Type} (w : World T) (key : Key) (v : T)
    (h : invNotBothNonempty w) : invNotBothNonempty (pooled w key v).2 := by
  unfold pooled
  by_cases hv : key.2 = Ver.Http1
  · rw [if_pos hv]
    exact invNB_of_pool_eq _ _ rfl h
  · rw [if_neg hv]
    exact invNB_put _ _ _ (invNB_of_pool_eq _ _ rfl h)

/-- Every public operation preserves no-empty-buckets. -/
theorem invNE_applyOp {T : Type} (probe : T → PollReady) (w : World T)
    (op : PublicOp T) (h : invNoEmptyBuckets w) :
    invNoEmptyBuckets (applyOp probe w op) := by
  cases op with
  | opPooled key v => exact invNE_pooled w key v h
  | opIdle p => exact invNE_pooledIdle w p h
  | opPoll c => exact invNE_checkoutPoll probe w c h
  | opDrop c => exact invNE_checkoutDrop w c h
  | opCheckout o v => exact invNE_of_pool_eq _ _ rfl h
  | opCancel tok => exact invNE_of_pool_eq _ _ rfl h
  | opTick dt => exact invNE_of_pool_eq _ _ rfl h

/-- Every public operation preserves not-both-non-empty. -/
theorem invNB_applyOp {T : Type} (probe : T → PollReady) (w : World T)
    (op : PublicOp T) (h : invNotBothNonempty w) :
    invNotBothNonempty (applyOp probe w op) := by
  cases op with
  | opPooled key v => exact invNB_pooled w key v h
  | opIdle p => exact invNB_pooledIdle w p h
  | opPoll c => exact invNB_checkoutPoll probe w c h
  | opDrop c => exact invNB_checkoutDrop w c h
  | opCheckout o v => exact invNB_of_pool_eq _ _ rfl h
  | opCancel tok => exact invNB_of_pool_eq _ _ rfl h
  | opTick dt => exact invNB_of_pool_eq _ _ rfl h

/-- C4: after any sequence of public operations on a fresh pool —
installs, idles, checkout polls, checkout drops, cancellations, time
passing — no key ever has both a non-empty idle bucket and a non-empty
parked queue. -/
theorem c4_not_both_nonempty (T : Type) (probe : T → PollReady) (en : Bool)
    (tmo : Option Nat) (ops : List (PublicOp T)) :
    invNotBothNonempty (List.foldl (applyOp probe) (World.init T en tmo) ops) := by
  have h0 : invNotBothNonempty (World.init T en tmo) := by
    intro k li lp hli _
    exact Option.noConfusion hli
  revert h0
  generalize World.init T en tmo = w0
  intro h0
  induction ops generalizing w0 with
  | nil => exact h0
  | cons op rest ih =>
      rw [List.foldl_cons]
      exact ih _ (invNB_applyOp probe w0 op h0)

/-- C5: after any sequence of public operations on a fresh pool, every
bucket present in the idle map and in the parked map is non-empty:
emptied buckets are deleted within the same call. -/
theorem c5_no_empty_buckets (T : Type) (probe : T → PollReady) (en : Bool)
    (tmo : Option Nat) (ops : List (PublicOp T)) :
    invNoEmptyBuckets (List.foldl (applyOp probe) (World.init T en tmo) ops) := by
  have h0 : invNoEmptyBuckets (World.init T en tmo) := by
    constructor
    · intro k l hml
      exact Option.noConfusion hml
    · intro k l hml
      exact Option.noConfusion hml
  revert h0
  generalize World.init T en tmo = w0
  intro h0
  induction ops generalizing w0 with
  | nil => exact h0
  | cons op rest ih =>
      rw [List.foldl_cons]
      exact ih _ (invNE_applyOp probe w0 op h0)

end HyperPool
